import Mathlib

/-!
Verification development for the SpeechWave repository (speechwave).

Shallow embedding of the core components, translated from the Python
sources:

  * `src/core/audio_recorder.py`   — `AudioRecorder`
  * `src/whisper_transcriber.py`   — `WhisperTranscriber`
  * `src/core/hotkey_manager.py`   — `HotkeyManager`
  * `src/app.py`                   — `SpeechWaveApp` orchestration

Conventions of the embedding:

  * Machine state (object attributes) becomes a structure; every method
    becomes a pure function from state to result × state.
  * Interactions with the outside world (the audio device opening, the
    model loader succeeding, the filesystem, the `keyboard` library's
    name normalisation) become explicit parameters of the functions.
  * Python exceptions raised by external calls are modelled as explicit
    outcome values; a method that catches all exceptions internally is
    total.
-/

namespace SpeechWave

/-! ## Audio recorder (`src/core/audio_recorder.py`)

Attributes `_pyaudio`, `_stream`, `_recording`, `_frames` of class
`AudioRecorder`.  A captured chunk (`in_data`, a byte string of 16-bit
samples) is modelled as a `List Int` of its samples.  The device
parameters (`_sample_rate`, `_channels`, `_chunk_size`) are read from
settings and passed through to PyAudio without affecting control flow,
so they are not part of the state.  `_temp_file` is never assigned
after `__init__` and is omitted. -/

/-- A chunk of captured audio: the 16-bit samples of one `in_data` buffer. -/
abbrev Chunk := List Int

/-- State of `AudioRecorder`: `_pyaudio` (instance present), `_stream`
(stream object present), `_recording`, `_frames`. -/
structure AudioRecorder where
  pyaudioInit : Bool
  streamOpen : Bool
  recording : Bool
  frames : List Chunk
  deriving Repr, DecidableEq

/-- The recorder as built by `AudioRecorder.__init__`. -/
def AudioRecorder.init : AudioRecorder :=
  { pyaudioInit := false, streamOpen := false, recording := false, frames := [] }

/-- `AudioRecorder._cleanup_internal`: closes the stream, terminates the
PyAudio instance, resets `_recording` and `_frames`.  All exceptions
inside it are caught, so it is total. -/
def AudioRecorder.cleanupInternal (_s : AudioRecorder) : AudioRecorder :=
  { pyaudioInit := false, streamOpen := false, recording := false, frames := [] }

/-- `AudioRecorder.start_recording`.  `openOk` tells whether
`pyaudio.open` succeeds (raises otherwise).  Returns the boolean result
and the new state.  The early `return False` when `_recording` is
already true happens before `_frames` is cleared or the stream touched. -/
def AudioRecorder.startRecording (openOk : Bool) (s : AudioRecorder) :
    Bool × AudioRecorder :=
  if s.recording then
    (false, s)
  else
    -- initialize PyAudio if needed, clear previous frames, open the stream
    if openOk then
      (true, { pyaudioInit := true, streamOpen := true, recording := true, frames := [] })
    else
      -- the exception handler runs `_cleanup_internal` and returns False
      (false, AudioRecorder.cleanupInternal { s with pyaudioInit := true, frames := [] })

/-- `AudioRecorder.stop_recording`.  `saveOk` tells whether writing the
WAV temp file succeeds (the `except` branch deletes the partial file and
returns `(None, None)` otherwise).  The result is the raw sample array
(`np.frombuffer(b''.join(frames), dtype=np.int16)`), i.e. the
concatenation of the captured chunks, or `none` for the `(None, None)`
outcomes.  The `finally` block always runs `_cleanup_internal`. -/
def AudioRecorder.stopRecording (saveOk : Bool) (s : AudioRecorder) :
    Option (List Int) × AudioRecorder :=
  if ¬ s.recording then
    -- "Stop requested but not recording." ; finally still cleans up
    (none, s.cleanupInternal)
  else
    -- recording := False, stream stopped and closed, frames copied and cleared
    let framesToSave := s.frames
    if framesToSave.isEmpty then
      -- "no audio frames were captured" : non-error empty result
      (none, s.cleanupInternal)
    else if saveOk then
      (some framesToSave.flatten, s.cleanupInternal)
    else
      -- exception during save: partial temp file unlinked, (None, None)
      (none, s.cleanupInternal)

/-- `AudioRecorder.is_recording`. -/
def AudioRecorder.isRecording (s : AudioRecorder) : Bool :=
  s.recording

/-- PyAudio stream callback flags returned by `_audio_callback`. -/
inductive StreamFlag where
  | paContinue
  | paComplete
  deriving Repr, DecidableEq

/-- `AudioRecorder._audio_callback`: while `_recording` is true the
chunk is appended to `_frames` and `paContinue` is returned; otherwise
the chunk is dropped and `paComplete` is returned. -/
def AudioRecorder.audioCallback (s : AudioRecorder) (c : Chunk) :
    StreamFlag × AudioRecorder :=
  if s.recording then
    (StreamFlag.paContinue, { s with frames := s.frames ++ [c] })
  else
    (StreamFlag.paComplete, s)

/-- Feeding a sequence of chunks through `_audio_callback`, keeping the
state. -/
def AudioRecorder.feed (s : AudioRecorder) (cs : List Chunk) : AudioRecorder :=
  cs.foldl (fun st c => (st.audioCallback c).2) s

/-! ## Whisper transcriber (`src/whisper_transcriber.py`)

Attributes `self.model` (presence of the loaded handle) and
`self._load_attempted` of class `WhisperTranscriber`.  The settings
fields (`model_size`, `device`, `compute_type`, `beam_size`, `language`)
are passed through to the external library and do not affect control
flow.  The external call `WhisperModel(...)` may succeed or raise; this
outcome is the `loadOk` parameter.  `ensureModelLoaded` additionally
reports how many times the underlying loader was invoked. -/

/-- State of `WhisperTranscriber`: whether `self.model is not None`, and
`self._load_attempted`. -/
structure WhisperTranscriber where
  modelLoaded : Bool
  loadAttempted : Bool
  deriving Repr, DecidableEq

/-- The transcriber as built by `__init__` (deferred loading). -/
def WhisperTranscriber.init : WhisperTranscriber :=
  { modelLoaded := false, loadAttempted := false }

/-- `WhisperTranscriber.unload_model`: only when a model is currently
loaded does it drop the handle and reset `_load_attempted`; otherwise it
merely logs and changes nothing. -/
def WhisperTranscriber.unloadModel (s : WhisperTranscriber) : WhisperTranscriber :=
  if s.modelLoaded then { modelLoaded := false, loadAttempted := false } else s

/-- `WhisperTranscriber._ensure_model_loaded`.  `loadOk` is the outcome
of the external `WhisperModel(...)` constructor.  Returns the boolean
result, the new state, and the number of loader invocations performed. -/
def WhisperTranscriber.ensureModelLoaded (loadOk : Bool) (s : WhisperTranscriber) :
    Bool × WhisperTranscriber × Nat :=
  if s.modelLoaded then (true, s, 0)
  else if s.loadAttempted then (false, s, 0)
  else if loadOk then (true, { modelLoaded := true, loadAttempted := true }, 1)
  else (false, { modelLoaded := false, loadAttempted := true }, 1)

/-- Python `str.strip()`: drop leading and trailing whitespace
characters. -/
def pyStrip (s : String) : String :=
  String.mk (((s.toList.dropWhile Char.isWhitespace).reverse.dropWhile
    Char.isWhitespace).reverse)

/-- Python `''.join(texts)` followed by `.strip()`, as computed for
`full_text` in `_transcribe_thread`. -/
def joinStrip (texts : List String) : String :=
  pyStrip (String.join texts)

/-- Outcome of the external call `self.model.transcribe(...)` inside the
worker thread: the segment texts it yields, or an exception. -/
inductive ModelStep where
  | segments (texts : List String)
  | raises
  deriving Repr, DecidableEq

/-- `WhisperTranscriber._transcribe_thread`, as the list of invocations
of the client callback, in order.  `cbRaises v` tells whether the client
callback raises when invoked with `v`.  On success the code computes
`"".join(segment texts).strip()` and invokes the callback with it inside
the `try`; if that invocation raises, the `except Exception` handler
invokes the callback once more with `None`. -/
def WhisperTranscriber.transcribeThread (step : ModelStep)
    (cbRaises : Option String → Bool) : List (Option String) :=
  match step with
  | ModelStep.segments texts =>
      let fullText := joinStrip texts
      if cbRaises (some fullText) then [some fullText, none] else [some fullText]
  | ModelStep.raises => [none]

/-- `WhisperTranscriber.transcribe`.  `fileExists` is the outcome of
`os.path.exists(audio_path)`.  Returns the new state and the list of
callback invocations (synchronous ones and those of the worker thread,
which runs exactly once when started). -/
def WhisperTranscriber.transcribe (loadOk fileExists : Bool) (step : ModelStep)
    (cbRaises : Option String → Bool) (s : WhisperTranscriber) :
    WhisperTranscriber × List (Option String) :=
  let r := WhisperTranscriber.ensureModelLoaded loadOk s
  if r.1 = false then (r.2.1, [none])
  else if fileExists = false then (r.2.1, [none])
  else (r.2.1, WhisperTranscriber.transcribeThread step cbRaises)

/-! ## Hotkey manager (`src/core/hotkey_manager.py`)

Attributes `_callbacks`, `_hotkey_parts`, `_hotkey_states`,
`_pressed_keys`, `_hooked`, `_record_hotkey_str` of class
`HotkeyManager`.  Python dictionaries become association lists with the
insertion-order update/append semantics of `dict`; the Python `set` of
parts is modelled by a list, every use of which (`issubset`, iteration)
depends only on membership.  `keyboard.normalize_name` is an external
function modelled by a parameter `normalize : String → Option String`
(`none` models the `KeyError` it raises on unknown keys). -/

/-- Association list with string keys, modelling a Python `dict`. -/
abbrev AssocL (α : Type) := List (String × α)

/-- Lookup, `d.get(k)`. -/
def alookup {α : Type} (k : String) : AssocL α → Option α
  | [] => none
  | (k₂, v) :: rest => if k₂ = k then some v else alookup k rest

/-- Assignment `d[k] = v`: replaces in place when the key exists,
appends otherwise (Python dict insertion order). -/
def aset {α : Type} (k : String) (v : α) : AssocL α → AssocL α
  | [] => [(k, v)]
  | (k₂, v₂) :: rest => if k₂ = k then (k₂, v) :: rest else (k₂, v₂) :: aset k v rest

/-- Removal, `d.pop(k, None)`. -/
def aerase {α : Type} (k : String) : AssocL α → AssocL α
  | [] => []
  | e :: rest => if e.1 = k then aerase k rest else e :: aerase k rest

/-- The key list of the dictionary. -/
def akeys {α : Type} (l : AssocL α) : List String :=
  l.map Prod.fst

/-- Presence of the `press` / `release` callables registered for a
hotkey (the value of `self._callbacks[hotkey_str]`). -/
structure CbPair where
  press : Bool
  release : Bool
  deriving Repr, DecidableEq

/-- State of `HotkeyManager`. -/
structure HotkeyManager where
  callbacks : AssocL CbPair
  hotkeyParts : AssocL (List String)
  hotkeyStates : AssocL Bool
  pressedKeys : List String
  hooked : Bool
  recordHotkeyStr : String
  deriving Repr, DecidableEq

/-- The manager as built by `__init__`; `recordHotkey` is the value of
`settings.get("hotkey.record")`. -/
def HotkeyManager.init (recordHotkey : String) : HotkeyManager :=
  { callbacks := [], hotkeyParts := [], hotkeyStates := [],
    pressedKeys := [], hooked := false, recordHotkeyStr := recordHotkey }

/-- Python `hotkey_str.split('+')` on the character list.  It never
returns the empty list: the empty string splits to `[""]`. -/
def splitPlus : List Char → List (List Char)
  | [] => [[]]
  | c :: cs =>
      if c = '+' then [] :: splitPlus cs
      else
        match splitPlus cs with
        | [] => [[c]]
        | p :: ps => (c :: p) :: ps

/-- The stripped parts of a hotkey string:
`(part.strip() for part in hotkey_str.split('+'))`. -/
def splitParts (hk : String) : List String :=
  (splitPlus hk.toList).map (fun cs => pyStrip (String.mk cs))

/-- Normalising every part in order, `none` as soon as one raises. -/
def normalizeAll (normalize : String → Option String) :
    List String → Option (List String)
  | [] => some []
  | x :: xs =>
      match normalize x, normalizeAll normalize xs with
      | some y, some ys => some (y :: ys)
      | _, _ => none

/-- `set(self._normalize_key_name(part.strip()) for part in
hotkey_str.split('+'))`: `none` models the `KeyError` /exception path of
normalisation.  (The Python value is a set; the list here is read only
through membership.) -/
def parseParts (normalize : String → Option String) (hk : String) :
    Option (List String) :=
  normalizeAll normalize (splitParts hk)

/-- `parts.issubset(self._pressed_keys)`. -/
def subsetB (parts pressed : List String) : Bool :=
  parts.all (fun k => pressed.contains k)

/-- `self._pressed_keys.add(name)` (set add). -/
def insertKey (k : String) (s : List String) : List String :=
  if s.contains k then s else k :: s

/-- `self._pressed_keys.discard(name)` (set discard). -/
def removeKey (k : String) (s : List String) : List String :=
  s.filter (fun q => q ≠ k)

/-- A `keyboard.KeyboardEvent` relevant to the hook callback:
`KEY_DOWN` or `KEY_UP` with the raw key name.  (Any other event type
makes the callback return immediately and is not modelled.) -/
inductive KeyEvent where
  | down (name : String)
  | up (name : String)
  deriving Repr, DecidableEq

/-- The raw `event.name`. -/
def KeyEvent.name : KeyEvent → String
  | down n => n
  | up n => n

/-- A callback dispatch performed by the hook callback (a
`threading.Thread(target=cb).start()` on the press or release callable
of the given hotkey). -/
inductive Dispatch where
  | press (hk : String)
  | release (hk : String)
  deriving Repr, DecidableEq

/-- The recorded activation state of a hotkey:
`self._hotkey_states.get(hotkey_str, False)`. -/
def stateOf (states : AssocL Bool) (hk : String) : Bool :=
  (alookup hk states).getD false

/-- The loop over `self._hotkey_parts.items()` in
`_keyboard_event_callback`: threads the states dictionary and collects
the dispatches, in iteration order. -/
def processHotkeys (pressed : List String) (cbs : AssocL CbPair) :
    List (String × List String) → AssocL Bool → AssocL Bool × List Dispatch
  | [], states => (states, [])
  | (hk, parts) :: rest, states =>
      let allPressed := subsetB parts pressed
      let cur := stateOf states hk
      if allPressed && !cur then
        let ds := if ((alookup hk cbs).getD ⟨false, false⟩).press
                  then [Dispatch.press hk] else []
        let r := processHotkeys pressed cbs rest (aset hk true states)
        (r.1, ds ++ r.2)
      else if !allPressed && cur then
        let ds := if ((alookup hk cbs).getD ⟨false, false⟩).release
                  then [Dispatch.release hk] else []
        let r := processHotkeys pressed cbs rest (aset hk false states)
        (r.1, ds ++ r.2)
      else
        processHotkeys pressed cbs rest states

/-- The updated pressed-key set: `add` on `KEY_DOWN`, `discard` on
`KEY_UP`. -/
def newPressed (e : KeyEvent) (k : String) (pressed : List String) :
    List String :=
  match e with
  | KeyEvent.down _ => insertKey k pressed
  | KeyEvent.up _ => removeKey k pressed

/-- `HotkeyManager._keyboard_event_callback`: normalises the key name
(ignoring unknown keys), updates the pressed-key set, then checks every
registered hotkey for an activation-state transition. -/
def HotkeyManager.keyboardEventCallback (normalize : String → Option String)
    (m : HotkeyManager) (e : KeyEvent) : HotkeyManager × List Dispatch :=
  match normalize e.name with
  | none => (m, [])
  | some k =>
      let pressed := newPressed e k m.pressedKeys
      let r := processHotkeys pressed m.callbacks m.hotkeyParts m.hotkeyStates
      ({ m with pressedKeys := pressed, hotkeyStates := r.1 }, r.2)

/-- Processing a sequence of events, concatenating the dispatches. -/
def HotkeyManager.runEvents (normalize : String → Option String)
    (m : HotkeyManager) : List KeyEvent → HotkeyManager × List Dispatch
  | [] => (m, [])
  | e :: es =>
      let r := m.keyboardEventCallback normalize e
      let rest := HotkeyManager.runEvents normalize r.1 es
      (rest.1, r.2 ++ rest.2)

/-- The successive pressed-key sets after each processed event. -/
def HotkeyManager.pressedTrace (normalize : String → Option String)
    (m : HotkeyManager) : List KeyEvent → List (List String)
  | [] => []
  | e :: es =>
      let m₂ := (m.keyboardEventCallback normalize e).1
      m₂.pressedKeys :: HotkeyManager.pressedTrace normalize m₂ es

/-- Number of rising edges (`false` to `true`) in a boolean trace that
starts from the given previous value. -/
def riseCount : Bool → List Bool → Nat
  | _, [] => 0
  | prev, b :: bs => (if b && !prev then 1 else 0) + riseCount b bs

/-- Number of falling edges (`true` to `false`) in a boolean trace that
starts from the given previous value. -/
def fallCount : Bool → List Bool → Nat
  | _, [] => 0
  | prev, b :: bs => (if !b && prev then 1 else 0) + fallCount b bs

/-- Number of press dispatches for a hotkey in a dispatch list. -/
def pressCount (hk : String) (ds : List Dispatch) : Nat :=
  ds.countP (fun d => decide (d = Dispatch.press hk))

/-- Number of release dispatches for a hotkey in a dispatch list. -/
def releaseCount (hk : String) (ds : List Dispatch) : Nat :=
  ds.countP (fun d => decide (d = Dispatch.release hk))

/-- `HotkeyManager.start`.  `hookOk` is the outcome of the external
`keyboard.hook(...)` call.  Returns the boolean result, the new state,
and how many times `keyboard.hook` was invoked. -/
def HotkeyManager.start (hookOk : Bool) (m : HotkeyManager) :
    Bool × HotkeyManager × Nat :=
  if m.hooked then
    -- "Hotkey listener already started." — returns before hooking again
    (true, m, 0)
  else if hookOk then (true, { m with hooked := true }, 1)
  else (false, { m with hooked := false }, 1)

/-- `HotkeyManager.stop`.  `unhookOk` is the outcome of
`keyboard.unhook_all()`. -/
def HotkeyManager.stop (unhookOk : Bool) (m : HotkeyManager) :
    Bool × HotkeyManager :=
  if ¬ m.hooked then (true, m)
  else if unhookOk then
    (true, { m with hooked := false, pressedKeys := [], hotkeyStates := [] })
  else (false, m)

/-- `HotkeyManager.register_hotkey`.  `onPress` / `onRelease` record
whether the respective callables are provided. -/
def HotkeyManager.registerHotkey (normalize : String → Option String)
    (hk : String) (onPress onRelease : Bool) (m : HotkeyManager) :
    Bool × HotkeyManager :=
  match parseParts normalize hk with
  | none =>
      -- exception while parsing: "Clean up partial registration"
      (false, { m with hotkeyParts := aerase hk m.hotkeyParts,
                       callbacks := aerase hk m.callbacks,
                       hotkeyStates := aerase hk m.hotkeyStates })
  | some parts =>
      if parts.isEmpty then
        -- `if not parts` — unreachable, splitting never yields no parts
        (false, m)
      else
        (true, { m with hotkeyParts := aset hk parts m.hotkeyParts,
                        callbacks := aset hk ⟨onPress, onRelease⟩ m.callbacks,
                        hotkeyStates := aset hk false m.hotkeyStates })

/-- `HotkeyManager.unregister_hotkey`. -/
def HotkeyManager.unregisterHotkey (hk : String) (m : HotkeyManager) :
    Bool × HotkeyManager :=
  if (alookup hk m.hotkeyParts).isSome then
    (true, { m with hotkeyParts := aerase hk m.hotkeyParts,
                    callbacks := aerase hk m.callbacks,
                    hotkeyStates := aerase hk m.hotkeyStates })
  else (false, m)

/-- `HotkeyManager.update_record_hotkey`: unregisters the old record
hotkey, registers the new one with the old callbacks, restores the old
one if that fails.  (`settings.set`/`settings.save` are external.) -/
def HotkeyManager.updateRecordHotkey (normalize : String → Option String)
    (newHk : String) (m : HotkeyManager) : Bool × HotkeyManager :=
  let oldHk := m.recordHotkeyStr
  let cbs := alookup oldHk m.callbacks
  if oldHk = newHk then (true, m)
  else
    let m₁ := if (alookup oldHk m.hotkeyParts).isSome
              then (m.unregisterHotkey oldHk).2 else m
    match cbs with
    | some cb =>
        let r := m₁.registerHotkey normalize newHk cb.press cb.release
        if r.1 then (true, { r.2 with recordHotkeyStr := newHk })
        else (false, (r.2.registerHotkey normalize oldHk cb.press cb.release).2)
    | none =>
        let r := m₁.registerHotkey normalize newHk false false
        if r.1 then (true, { r.2 with recordHotkeyStr := newHk })
        else (false, r.2)

/-- One operation on the hotkey manager, for the registration-state
invariant. -/
inductive HMOp where
  | register (hk : String) (onPress onRelease : Bool)
  | unregister (hk : String)
  | updateRecord (newHk : String)
  | start (hookOk : Bool)
  | stop (unhookOk : Bool)
  | keyEvent (e : KeyEvent)
  deriving Repr, DecidableEq

/-- State effect of one operation. -/
def HotkeyManager.applyOp (normalize : String → Option String)
    (m : HotkeyManager) : HMOp → HotkeyManager
  | HMOp.register hk p r => (m.registerHotkey normalize hk p r).2
  | HMOp.unregister hk => (m.unregisterHotkey hk).2
  | HMOp.updateRecord s => (m.updateRecordHotkey normalize s).2
  | HMOp.start ok => (m.start ok).2.1
  | HMOp.stop ok => (m.stop ok).2
  | HMOp.keyEvent e => (m.keyboardEventCallback normalize e).1

/-- Registration-state invariant of the manager: `_hotkey_parts` and
`_callbacks` hold exactly the same hotkey identifiers, and the
identifiers of `_hotkey_states` are among them. -/
def hmInv (m : HotkeyManager) : Prop :=
  (∀ k, k ∈ akeys m.hotkeyParts ↔ k ∈ akeys m.callbacks) ∧
  (∀ k, k ∈ akeys m.hotkeyStates → k ∈ akeys m.hotkeyParts)

/-- Well-formedness used for the activation claims: the parts dictionary
has no duplicate keys and every registered hotkey's recorded state
agrees with whether its parts are currently a subset of the pressed
keys. -/
def hkWf (m : HotkeyManager) : Prop :=
  (akeys m.hotkeyParts).Nodup ∧
  ∀ hk parts, alookup hk m.hotkeyParts = some parts →
    stateOf m.hotkeyStates hk = subsetB parts m.pressedKeys

/-! ## Application orchestration (`src/app.py`)

The stop→transcribe→insert chain of `SpeechWaveApp` and `shutdown`.
The filesystem is the list of existing temp-file paths. -/

/-- The list of existing temporary audio files. -/
abbrev FileSys := List String

/-- Python exception classes distinguished by the orchestrator's
handler in `_stop_and_process_recording`. -/
inductive PyExc where
  | typeError
  | otherError
  deriving Repr, DecidableEq

/-- `SpeechWaveApp._cleanup_temp_file`: deletes the file if it exists;
`OSError` is caught, so the function is total. -/
def cleanupTempFile (fs : FileSys) (p : String) : FileSys :=
  fs.filter (fun q => q ≠ p)

/-- Behaviour of the `TextInserter.insert_text` call performed for a
non-empty transcription. -/
inductive InsertStep where
  | done (ok : Bool)
  | raises
  deriving Repr, DecidableEq

/-- `SpeechWaveApp._handle_transcription_result`: inserts the text when
the transcription is non-`None` and non-empty (`except Exception`
catches an insertion error), and in all cases the `finally` block
deletes the audio artifact.  Returns `insert_success` and the new
filesystem. -/
def handleTranscriptionResult (fs : FileSys) (transcription : Option String)
    (audioFilePath : String) (ins : InsertStep) : Bool × FileSys :=
  let insertSuccess :=
    match transcription with
    | some t =>
        if t ≠ "" then
          match ins with
          | InsertStep.done ok => ok
          | InsertStep.raises => false     -- caught by `except Exception`
        else false                         -- "Transcription resulted in empty text."
    | none => false                        -- "Transcription failed."
  (insertSuccess, cleanupTempFile fs audioFilePath)

/-- Behaviour of the `self._transcriber.transcribe(...)` call made by
the worker: either it leads to exactly one invocation of the result
callback (synchronously or from the transcription thread) with the
given result, or the call itself raises before any callback runs. -/
inductive TranscribeCall where
  | callbackWith (result : Option String)
  | raises (e : PyExc)
  deriving Repr, DecidableEq

/-- `SpeechWaveApp._stop_and_process_recording` together with the
result handling it triggers.  `stopRes` is the artifact path returned
by `stop_recording` (which catches its own errors), already present in
`fs` when produced.  The surrounding `except Exception` means the
function itself never lets an exception escape the worker; its handler
deletes the artifact only when the exception is a `TypeError`. -/
def stopAndProcessRecording (fs : FileSys) (stopRes : Option String)
    (call : TranscribeCall) (ins : InsertStep) : FileSys :=
  match stopRes with
  | none => fs      -- "No audio file produced by recorder."
  | some tempAudioFile =>
      match call with
      | TranscribeCall.callbackWith result =>
          (handleTranscriptionResult fs result tempAudioFile ins).2
      | TranscribeCall.raises e =>
          match e with
          | PyExc.typeError => cleanupTempFile fs tempAudioFile
          | PyExc.otherError => fs

/-- The method and attribute names defined on class `AudioRecorder` in
`src/core/audio_recorder.py`; Python attribute lookup against this list
decides whether `self._audio_recorder._cleanup()` in
`SpeechWaveApp.shutdown` raises `AttributeError`. -/
def audioRecorderMethods : List String :=
  ["__init__", "start_recording", "stop_recording", "is_recording",
   "_audio_callback", "_cleanup_internal", "update_settings",
   "get_available_devices", "__del__"]

/-- State of `SpeechWaveApp` relevant to `shutdown`. -/
structure SpeechWaveApp where
  recording : Bool
  recorder : AudioRecorder
  transcriber : WhisperTranscriber
  hotkeys : HotkeyManager
  trayActive : Bool
  qtRunning : Bool
  deriving Repr, DecidableEq

/-- `SpeechWaveApp.shutdown`: stops the hotkey hook, unloads the model,
then — if recording — stops the recorder and deletes the produced
artifact, otherwise calls `self._audio_recorder._cleanup()`, and
finally shuts the tray down and quits Qt.  `tempName` is the name of
the temporary file `stop_recording` would create.  The result is the
final state and filesystem, or the name of an uncaught exception. -/
def SpeechWaveApp.shutdown (unhookOk saveOk : Bool) (tempName : String)
    (fs : FileSys) (app : SpeechWaveApp) :
    Except String (SpeechWaveApp × FileSys) :=
  let hot := (app.hotkeys.stop unhookOk).2
  let trans := app.transcriber.unloadModel
  if app.recording then
    let r := app.recorder.stopRecording saveOk
    let fs₁ := match r.1 with
      | some _ => cleanupTempFile (fs ++ [tempName]) tempName
      | none => fs
    Except.ok ({ app with recorder := r.2, transcriber := trans,
                          hotkeys := hot, trayActive := false,
                          qtRunning := false }, fs₁)
  else
    if audioRecorderMethods.contains "_cleanup" then
      Except.ok ({ app with recorder := app.recorder.cleanupInternal,
                            transcriber := trans, hotkeys := hot,
                            trayActive := false, qtRunning := false }, fs)
    else
      Except.error "AttributeError: AudioRecorder has no attribute _cleanup"

/-- A concrete manager with the single hotkey `"a+b"` registered with
both callables, used to instantiate the hotkey theorems. -/
def sampleManager : HotkeyManager :=
  { callbacks := [("a+b", ⟨true, true⟩)],
    hotkeyParts := [("a+b", ["a", "b"])],
    hotkeyStates := [("a+b", false)],
    pressedKeys := [], hooked := true, recordHotkeyStr := "a+b" }

/-- A concrete event sequence: two maximal all-held intervals of the
combination `"a+b"`, with one repeated key-down inside the first. -/
def sampleEvents : List KeyEvent :=
  [KeyEvent.down "a", KeyEvent.down "b", KeyEvent.down "b",
   KeyEvent.up "a", KeyEvent.down "a", KeyEvent.up "b"]

/-! ## Theorems -/

/-! ### Recorder lemmas and claims C4, C5, C6 -/

theorem AudioRecorder.feed_nil (s : AudioRecorder) : s.feed [] = s := rfl

theorem AudioRecorder.feed_cons (s : AudioRecorder) (c : Chunk) (cs : List Chunk) :
    s.feed (c :: cs) = ((s.audioCallback c).2).feed cs := rfl

/-- While recording, feeding chunks appends them to the frame buffer in
order and keeps the recorder recording. -/
theorem AudioRecorder.feed_recording (cs : List Chunk) :
    ∀ s : AudioRecorder, s.recording = true →
      s.feed cs = { s with frames := s.frames ++ cs } := by
  induction cs with
  | nil =>
    intro s _
    simp [AudioRecorder.feed_nil]
  | cons c cs ih =>
    intro s hrec
    rw [AudioRecorder.feed_cons]
    simp only [AudioRecorder.audioCallback, hrec, if_true]
    rw [ih _ (by simp [hrec])]
    simp

/-- C4: if a capture is already active, a second `start_recording` call
returns `False` and leaves the recorder state completely unchanged — the
frame buffer is not cleared, the recording flag stays true, and the
stream is untouched — whatever the device-open outcome would have been. -/
theorem startRecording_already_active (openOk : Bool) (s : AudioRecorder)
    (h : s.recording = true) :
    s.startRecording openOk = (false, s) := by
  simp [AudioRecorder.startRecording, h]

/-- Witness for C4 at a concrete mid-capture state. -/
theorem startRecording_already_active_witness :
    ({ pyaudioInit := true, streamOpen := true, recording := true,
       frames := [[1, 2], [3]] } : AudioRecorder).recording = true ∧
    ({ pyaudioInit := true, streamOpen := true, recording := true,
       frames := [[1, 2], [3]] } : AudioRecorder).startRecording true =
      (false, { pyaudioInit := true, streamOpen := true, recording := true,
                frames := [[1, 2], [3]] }) :=
  ⟨rfl, startRecording_already_active true _ rfl⟩

/-- C5: `stop_recording` returns the empty result (`None`) rather than
raising, both when no capture is active and when a capture is active but
zero frames were accumulated.  (The embedded function is total: every
exception inside `stop_recording` is caught by its own handler, which
also returns `(None, None)`.) -/
theorem stopRecording_degenerate (saveOk : Bool) (s : AudioRecorder)
    (h : s.recording = false ∨ s.frames = []) :
    (s.stopRecording saveOk).1 = none := by
  rcases h with h | h
  · simp [AudioRecorder.stopRecording, h]
  · by_cases hrec : s.recording
    · simp [AudioRecorder.stopRecording, hrec, h]
    · simp [AudioRecorder.stopRecording, hrec]

/-- Witness for C5: a recorder that is not recording, and one that is
recording with an empty frame buffer, both yield `none`. -/
theorem stopRecording_degenerate_witness :
    ((AudioRecorder.init.recording = false ∨ AudioRecorder.init.frames = []) ∧
      (AudioRecorder.init.stopRecording true).1 = none) ∧
    ((({ pyaudioInit := true, streamOpen := true, recording := true,
         frames := [] } : AudioRecorder).recording = false ∨
      ({ pyaudioInit := true, streamOpen := true, recording := true,
         frames := [] } : AudioRecorder).frames = []) ∧
      (({ pyaudioInit := true, streamOpen := true, recording := true,
          frames := [] } : AudioRecorder).stopRecording true).1 = none) :=
  ⟨⟨Or.inl rfl, stopRecording_degenerate true _ (Or.inl rfl)⟩,
   ⟨Or.inr rfl, stopRecording_degenerate true _ (Or.inr rfl)⟩⟩

/-- C6: in a full capture cycle — start succeeds, the audio callback
delivers the chunks `cs` while the recording flag is true, then stop —
the returned raw sample array is exactly the concatenation of the
delivered chunks in delivery order, and its sample count is the sum of
the chunks' lengths. -/
theorem full_cycle_samples (s : AudioRecorder) (cs : List Chunk)
    (hidle : s.recording = false) (hne : cs ≠ []) :
    (s.startRecording true).1 = true ∧
    ((((s.startRecording true).2).feed cs).stopRecording true).1 = some cs.flatten ∧
    cs.flatten.length = (cs.map List.length).sum := by
  have hstart : s.startRecording true =
      (true, { pyaudioInit := true, streamOpen := true, recording := true,
               frames := [] }) := by
    simp [AudioRecorder.startRecording, hidle]
  refine ⟨by rw [hstart], ?_, by simp [List.length_flatten]⟩
  rw [hstart]
  rw [AudioRecorder.feed_recording cs _ rfl]
  simp [AudioRecorder.stopRecording, List.isEmpty_iff, hne]

/-- Witness for C6: three chunks fed from the freshly initialized
recorder. -/
theorem full_cycle_samples_witness :
    AudioRecorder.init.recording = false ∧
    ([[0, 0], [0], [0, 0, 0]] : List Chunk) ≠ [] ∧
    ((AudioRecorder.init.startRecording true).1 = true ∧
      ((((AudioRecorder.init.startRecording true).2).feed
          [[0, 0], [0], [0, 0, 0]]).stopRecording true).1 =
        some ([[0, 0], [0], [0, 0, 0]] : List Chunk).flatten ∧
      ([[0, 0], [0], [0, 0, 0]] : List Chunk).flatten.length =
        (([[0, 0], [0], [0, 0, 0]] : List Chunk).map List.length).sum) :=
  ⟨rfl, by decide, full_cycle_samples AudioRecorder.init _ rfl (by decide)⟩

/-! ### Claims C7, C8 -/

/-- C7 counterexample: after a failed load attempt, `unload_model` does
NOT reset the attempt state (the model is `None`, so `unload_model`
changes nothing), and a subsequent ensure-loaded call performs zero new
load attempts even though the loader would now succeed — contradicting
the claim that `unload()` resets the attempt state, after which one new
attempt may proceed. -/
theorem ensureLoaded_unload_counterexample :
    WhisperTranscriber.ensureModelLoaded false WhisperTranscriber.init =
      (false, ⟨false, true⟩, 1) ∧
    WhisperTranscriber.unloadModel ⟨false, true⟩ = ⟨false, true⟩ ∧
    WhisperTranscriber.ensureModelLoaded true ⟨false, true⟩ =
      (false, ⟨false, true⟩, 0) := by
  exact ⟨rfl, rfl, rfl⟩

/-- C7 (amended): the load path attempts the underlying load at most
once per unload cycle: a fresh (or freshly unloaded) transcriber makes
exactly one loader invocation; after a failed attempt every ensure call
returns `False` with zero loader invocations and an unchanged state;
`unload_model` resets the attempt state only when a model is currently
loaded (after a failed attempt it is a no-op, so no new attempt ever
proceeds); when the model is loaded, ensure returns `True` without
reloading. -/
theorem ensureLoaded_attempt_spec (loadOk a : Bool) :
    WhisperTranscriber.ensureModelLoaded loadOk ⟨false, true⟩ =
      (false, ⟨false, true⟩, 0) ∧
    WhisperTranscriber.unloadModel ⟨false, a⟩ = ⟨false, a⟩ ∧
    WhisperTranscriber.ensureModelLoaded loadOk ⟨true, a⟩ = (true, ⟨true, a⟩, 0) ∧
    WhisperTranscriber.unloadModel ⟨true, a⟩ = ⟨false, false⟩ ∧
    WhisperTranscriber.ensureModelLoaded loadOk ⟨false, false⟩ =
      (loadOk, ⟨loadOk, true⟩, 1) := by
  cases loadOk <;> cases a <;> exact ⟨rfl, rfl, rfl, rfl, rfl⟩

/-- C8 counterexample: when transcription succeeds but the client
callback raises on the success invocation, the callback is invoked a
second time with `None` by the `except` handler — two invocations, not
exactly one as the claim states. -/
theorem transcribe_double_invocation_counterexample :
    (WhisperTranscriber.transcribe true true (ModelStep.segments ["hi"])
        (fun _ => true) ⟨true, true⟩).2 = [some "hi", none] ∧
    ((WhisperTranscriber.transcribe true true (ModelStep.segments ["hi"])
        (fun _ => true) ⟨true, true⟩).2).length ≠ 1 := by
  exact ⟨rfl, by decide⟩

/-- C8 (amended): provided the client callback does not itself raise,
every call to `transcribe` invokes it exactly once: with `None` when the
model is not available (load failed now or previously), when the audio
file does not exist, or when the transcription step raises; and with the
stripped concatenation of the segment texts (possibly the empty string)
on success.  If the callback raises on the success invocation it is
invoked a second time with `None`. -/
theorem transcribe_invocations (loadOk fileExists : Bool) (step : ModelStep)
    (cbRaises : Option String → Bool) (s : WhisperTranscriber)
    (hcb : ∀ v, cbRaises v = false) :
    ((WhisperTranscriber.transcribe loadOk fileExists step cbRaises s).2).length = 1 ∧
    ((WhisperTranscriber.ensureModelLoaded loadOk s).1 = false →
      (WhisperTranscriber.transcribe loadOk fileExists step cbRaises s).2 = [none]) ∧
    (fileExists = false →
      (WhisperTranscriber.transcribe loadOk fileExists step cbRaises s).2 = [none]) ∧
    (step = ModelStep.raises →
      (WhisperTranscriber.transcribe loadOk fileExists step cbRaises s).2 = [none]) ∧
    (∀ texts, step = ModelStep.segments texts →
      (WhisperTranscriber.ensureModelLoaded loadOk s).1 = true → fileExists = true →
      (WhisperTranscriber.transcribe loadOk fileExists step cbRaises s).2 =
        [some (joinStrip texts)]) := by
  unfold WhisperTranscriber.transcribe
  by_cases hok : (WhisperTranscriber.ensureModelLoaded loadOk s).1 = false
  · simp [hok]
  · by_cases hf : fileExists = false
    · simp [hok, hf]
    · cases step with
      | segments texts =>
        simp [hok, hf, WhisperTranscriber.transcribeThread, hcb]
      | raises =>
        simp [hok, hf, WhisperTranscriber.transcribeThread]

/-- Witness for C8 (amended): a concrete successful transcription with a
non-raising callback yields exactly one invocation. -/
theorem transcribe_invocations_witness :
    (∀ v : Option String, (fun _ : Option String => false) v = false) ∧
    ((WhisperTranscriber.transcribe true true (ModelStep.segments [" hi "])
        (fun _ => false) WhisperTranscriber.init).2).length = 1 :=
  ⟨fun _ => rfl,
   (transcribe_invocations true true (ModelStep.segments [" hi "])
      (fun _ => false) WhisperTranscriber.init (fun _ => rfl)).1⟩

/-! ### Claims C2, C3 -/

/-- C2 counterexample: when the transcribe-dispatch step raises an
exception that is not a `TypeError` after the artifact was produced, the
orchestrator's handler catches it but does not delete the artifact —
the temp file survives the worker, contrary to the claim that the
artifact is deleted whenever any step raises. -/
theorem pipeline_artifact_leak_counterexample :
    stopAndProcessRecording ["rec.wav"] (some "rec.wav")
      (TranscribeCall.raises PyExc.otherError) (InsertStep.done true) =
      ["rec.wav"] ∧
    "rec.wav" ∈ stopAndProcessRecording ["rec.wav"] (some "rec.wav")
      (TranscribeCall.raises PyExc.otherError) (InsertStep.done true) := by
  exact ⟨rfl, by simp [stopAndProcessRecording]⟩

/-- C2 (amended): no exception ever propagates out of the worker (the
embedded chain is total), and the artifact is deleted whenever the
result callback runs — successful insertion, empty transcription, `None`
result, or an exception raised while handling the result — and also when
the dispatch step raises a `TypeError`; but when the dispatch step
raises any other exception the artifact survives (it is only removed
when `isinstance(e, TypeError)`). -/
theorem pipeline_cleanup (fs : FileSys) (p : String) (result : Option String)
    (ins : InsertStep) :
    p ∉ stopAndProcessRecording fs (some p) (TranscribeCall.callbackWith result) ins ∧
    p ∉ stopAndProcessRecording fs (some p) (TranscribeCall.raises PyExc.typeError) ins ∧
    stopAndProcessRecording fs (some p) (TranscribeCall.raises PyExc.otherError) ins = fs ∧
    stopAndProcessRecording fs none (TranscribeCall.callbackWith result) ins = fs := by
  refine ⟨?_, ?_, rfl, rfl⟩ <;>
    simp [stopAndProcessRecording, handleTranscriptionResult, cleanupTempFile,
      List.mem_filter]

/-- C3: evaluating `shutdown` in the two cases of the claim.  In the
not-recording case the call `self._audio_recorder._cleanup()` raises
`AttributeError` (the recorder class defines `_cleanup_internal`, not
`_cleanup`), so the teardown does not complete: the tray is never shut
down and Qt never quits.  In the currently-recording case the teardown
does complete: the recorder is fully cleaned up and the artifact file is
deleted. -/
theorem shutdown_missing_cleanup_attribute :
    SpeechWaveApp.shutdown true true "rec.wav" []
      { recording := false, recorder := AudioRecorder.init,
        transcriber := ⟨true, true⟩,
        hotkeys := { HotkeyManager.init "ctrl+shift+space" with hooked := true },
        trayActive := true, qtRunning := true } =
      Except.error "AttributeError: AudioRecorder has no attribute _cleanup" ∧
    SpeechWaveApp.shutdown true true "rec.wav" []
      { recording := true,
        recorder := { pyaudioInit := true, streamOpen := true,
                      recording := true, frames := [[0, 0]] },
        transcriber := ⟨true, true⟩,
        hotkeys := { HotkeyManager.init "ctrl+shift+space" with hooked := true },
        trayActive := true, qtRunning := true } =
      Except.ok
        ({ recording := true, recorder := AudioRecorder.init,
           transcriber := ⟨false, false⟩,
           hotkeys := HotkeyManager.init "ctrl+shift+space",
           trayActive := false, qtRunning := false }, []) := by
  constructor
  · rfl
  · rfl

/-! ### Association-list lemmas -/

theorem alookup_aset {α : Type} (k k₂ : String) (v : α) (l : AssocL α) :
    alookup k₂ (aset k v l) = if k = k₂ then some v else alookup k₂ l := by
  induction l with
  | nil => simp [aset, alookup]
  | cons e rest ih =>
    obtain ⟨k₃, v₃⟩ := e
    by_cases h : k₃ = k
    · subst h
      by_cases h₂ : k₃ = k₂
      · subst h₂
        simp [aset, alookup]
      · simp [aset, alookup, h₂]
    · by_cases h₂ : k₃ = k₂
      · subst h₂
        have h₃ : ¬ k = k₃ := fun hh => h hh.symm
        simp [aset, alookup, h, h₃]
      · simp [aset, alookup, h, h₂, ih]

theorem alookup_aerase {α : Type} (k k₂ : String) (l : AssocL α) :
    alookup k₂ (aerase k l) = if k = k₂ then none else alookup k₂ l := by
  induction l with
  | nil => simp [aerase, alookup]
  | cons e rest ih =>
    obtain ⟨k₃, v₃⟩ := e
    by_cases h : k₃ = k
    · subst h
      by_cases h₂ : k₃ = k₂
      · subst h₂
        simp only [aerase, if_pos rfl]
        simpa using ih
      · have hstep : aerase k₃ ((k₃, v₃) :: rest) = aerase k₃ rest := by
          simp [aerase]
        rw [hstep, ih, if_neg h₂]
        simp [alookup, h₂]
    · by_cases h₂ : k₃ = k₂
      · subst h₂
        have h₃ : ¬ k = k₃ := fun hh => h hh.symm
        simp [aerase, alookup, h, h₃]
      · simp [aerase, alookup, h, h₂, ih]

theorem mem_akeys {α : Type} (k : String) (l : AssocL α) :
    k ∈ akeys l ↔ ∃ v, (k, v) ∈ l := by
  simp only [akeys, List.mem_map]
  constructor
  · rintro ⟨⟨k₂, v⟩, hmem, rfl⟩
    exact ⟨v, hmem⟩
  · rintro ⟨v, hmem⟩
    exact ⟨(k, v), hmem, rfl⟩

theorem alookup_isSome_iff_mem_akeys {α : Type} (k : String) (l : AssocL α) :
    (alookup k l).isSome = true ↔ k ∈ akeys l := by
  induction l with
  | nil => simp [alookup, akeys]
  | cons e rest ih =>
    obtain ⟨k₂, v⟩ := e
    by_cases h : k₂ = k
    · subst h
      simp [alookup, akeys]
    · have h₂ : ¬ k = k₂ := fun hh => h hh.symm
      simp [alookup, akeys, h, h₂, ih]

theorem mem_akeys_aset {α : Type} (x k : String) (v : α) (l : AssocL α) :
    x ∈ akeys (aset k v l) ↔ x = k ∨ x ∈ akeys l := by
  rw [← alookup_isSome_iff_mem_akeys, ← alookup_isSome_iff_mem_akeys,
    alookup_aset]
  by_cases h : k = x
  · subst h
    simp
  · have h₂ : ¬ x = k := fun hh => h hh.symm
    simp [h, h₂]

theorem mem_akeys_aerase {α : Type} (x k : String) (l : AssocL α) :
    x ∈ akeys (aerase k l) ↔ x ∈ akeys l ∧ x ≠ k := by
  rw [← alookup_isSome_iff_mem_akeys, ← alookup_isSome_iff_mem_akeys,
    alookup_aerase]
  by_cases h : k = x
  · subst h
    simp
  · have h₂ : ¬ x = k := fun hh => h hh.symm
    simp [h, h₂]

theorem alookup_mem {α : Type} (k : String) (v : α) (l : AssocL α)
    (h : alookup k l = some v) : (k, v) ∈ l := by
  induction l with
  | nil => simp [alookup] at h
  | cons e rest ih =>
    obtain ⟨k₂, v₂⟩ := e
    by_cases hk : k₂ = k
    · subst hk
      have h₂ : v₂ = v := by simpa [alookup] using h
      subst h₂
      exact List.mem_cons_self _ _
    · simp only [alookup, if_neg hk] at h
      exact List.mem_cons_of_mem _ (ih h)

theorem alookup_eq_some_of_mem_nodup {α : Type} (k : String) (v : α)
    (l : AssocL α) (hnd : (akeys l).Nodup) (h : (k, v) ∈ l) :
    alookup k l = some v := by
  induction l with
  | nil => simp at h
  | cons e rest ih =>
    obtain ⟨k₂, v₂⟩ := e
    simp only [akeys, List.map_cons, List.nodup_cons] at hnd
    rcases List.mem_cons.mp h with h | h
    · injection h with h1 h2
      subst h1
      subst h2
      simp [alookup]
    · by_cases hk : k₂ = k
      · subst hk
        exact absurd ((mem_akeys k₂ rest).mpr ⟨v, h⟩) hnd.1
      · simp only [alookup, if_neg hk]
        exact ih hnd.2 h

/-! ### Hotkey parsing lemmas -/

theorem splitPlus_ne_nil (l : List Char) : splitPlus l ≠ [] := by
  induction l with
  | nil => simp [splitPlus]
  | cons c cs ih =>
    by_cases h : c = '+'
    · simp [splitPlus, h]
    · simp only [splitPlus, if_neg h]
      cases hs : splitPlus cs with
      | nil => simp
      | cons p ps => simp

theorem splitParts_ne_nil (hk : String) : splitParts hk ≠ [] := by
  simp only [splitParts, ne_eq, List.map_eq_nil_iff]
  exact splitPlus_ne_nil _

theorem normalizeAll_some_ne_nil (f : String → Option String)
    (l : List String) (ps : List String) (hl : l ≠ [])
    (h : normalizeAll f l = some ps) : ps ≠ [] := by
  cases l with
  | nil => exact absurd rfl hl
  | cons x xs =>
    simp only [normalizeAll] at h
    cases hx : f x with
    | none => rw [hx] at h; simp at h
    | some y =>
      rw [hx] at h
      cases hxs : normalizeAll f xs with
      | none => rw [hxs] at h; simp at h
      | some ys =>
        rw [hxs] at h
        simp only [Option.some.injEq] at h
        subst h
        simp

theorem parseParts_some_ne_nil (normalize : String → Option String)
    (hk : String) (ps : List String) (h : parseParts normalize hk = some ps) :
    ps ≠ [] :=
  normalizeAll_some_ne_nil normalize _ ps (splitParts_ne_nil hk) h

/-! ### Dispatch-count helpers -/

theorem pressCount_nil (hk : String) : pressCount hk [] = 0 := rfl

theorem releaseCount_nil (hk : String) : releaseCount hk [] = 0 := rfl

theorem pressCount_append (hk : String) (l₁ l₂ : List Dispatch) :
    pressCount hk (l₁ ++ l₂) = pressCount hk l₁ + pressCount hk l₂ := by
  simp [pressCount, List.countP_append]

theorem releaseCount_append (hk : String) (l₁ l₂ : List Dispatch) :
    releaseCount hk (l₁ ++ l₂) = releaseCount hk l₁ + releaseCount hk l₂ := by
  simp [releaseCount, List.countP_append]

theorem pressCount_press (hk hk₂ : String) :
    pressCount hk [Dispatch.press hk₂] = if hk₂ = hk then 1 else 0 := by
  by_cases h : hk₂ = hk <;> simp [pressCount, List.countP_cons, h]

theorem pressCount_release (hk hk₂ : String) :
    pressCount hk [Dispatch.release hk₂] = 0 := by
  simp [pressCount, List.countP_cons]

theorem releaseCount_release (hk hk₂ : String) :
    releaseCount hk [Dispatch.release hk₂] = if hk₂ = hk then 1 else 0 := by
  by_cases h : hk₂ = hk <;> simp [releaseCount, List.countP_cons, h]

theorem releaseCount_press (hk hk₂ : String) :
    releaseCount hk [Dispatch.press hk₂] = 0 := by
  simp [releaseCount, List.countP_cons]

/-! ### `processHotkeys` lemmas -/

theorem processHotkeys_nil (pressed : List String) (cbs : AssocL CbPair)
    (states : AssocL Bool) :
    processHotkeys pressed cbs [] states = (states, []) := rfl

theorem processHotkeys_cons (pressed : List String) (cbs : AssocL CbPair)
    (hk₂ : String) (parts₂ : List String) (rest : List (String × List String))
    (states : AssocL Bool) :
    processHotkeys pressed cbs ((hk₂, parts₂) :: rest) states =
      if subsetB parts₂ pressed && !(stateOf states hk₂) then
        ((processHotkeys pressed cbs rest (aset hk₂ true states)).1,
          (if ((alookup hk₂ cbs).getD ⟨false, false⟩).press
           then [Dispatch.press hk₂] else []) ++
            (processHotkeys pressed cbs rest (aset hk₂ true states)).2)
      else if !(subsetB parts₂ pressed) && stateOf states hk₂ then
        ((processHotkeys pressed cbs rest (aset hk₂ false states)).1,
          (if ((alookup hk₂ cbs).getD ⟨false, false⟩).release
           then [Dispatch.release hk₂] else []) ++
            (processHotkeys pressed cbs rest (aset hk₂ false states)).2)
      else processHotkeys pressed cbs rest states := rfl

theorem processHotkeys_cons_rise (pressed : List String) (cbs : AssocL CbPair)
    (hk₂ : String) (parts₂ : List String) (rest : List (String × List String))
    (states : AssocL Bool)
    (h : (subsetB parts₂ pressed && !(stateOf states hk₂)) = true) :
    processHotkeys pressed cbs ((hk₂, parts₂) :: rest) states =
      ((processHotkeys pressed cbs rest (aset hk₂ true states)).1,
        (if ((alookup hk₂ cbs).getD ⟨false, false⟩).press
         then [Dispatch.press hk₂] else []) ++
          (processHotkeys pressed cbs rest (aset hk₂ true states)).2) := by
  rw [processHotkeys_cons, if_pos h]

theorem processHotkeys_cons_fall (pressed : List String) (cbs : AssocL CbPair)
    (hk₂ : String) (parts₂ : List String) (rest : List (String × List String))
    (states : AssocL Bool)
    (h₁ : (subsetB parts₂ pressed && !(stateOf states hk₂)) = false)
    (h₂ : (!(subsetB parts₂ pressed) && stateOf states hk₂) = true) :
    processHotkeys pressed cbs ((hk₂, parts₂) :: rest) states =
      ((processHotkeys pressed cbs rest (aset hk₂ false states)).1,
        (if ((alookup hk₂ cbs).getD ⟨false, false⟩).release
         then [Dispatch.release hk₂] else []) ++
          (processHotkeys pressed cbs rest (aset hk₂ false states)).2) := by
  rw [processHotkeys_cons, if_neg (by simp [h₁]), if_pos h₂]

theorem processHotkeys_cons_same (pressed : List String) (cbs : AssocL CbPair)
    (hk₂ : String) (parts₂ : List String) (rest : List (String × List String))
    (states : AssocL Bool)
    (h₁ : (subsetB parts₂ pressed && !(stateOf states hk₂)) = false)
    (h₂ : (!(subsetB parts₂ pressed) && stateOf states hk₂) = false) :
    processHotkeys pressed cbs ((hk₂, parts₂) :: rest) states =
      processHotkeys pressed cbs rest states := by
  rw [processHotkeys_cons, if_neg (by simp [h₁]), if_neg (by simp [h₂])]

/-- Keys not registered in the parts dictionary are untouched by the
loop and receive no dispatch. -/
theorem processHotkeys_not_mem (pressed : List String) (cbs : AssocL CbPair)
    (hk : String) :
    ∀ (pl : List (String × List String)) (states : AssocL Bool),
      hk ∉ pl.map Prod.fst →
      alookup hk (processHotkeys pressed cbs pl states).1 = alookup hk states ∧
      pressCount hk (processHotkeys pressed cbs pl states).2 = 0 ∧
      releaseCount hk (processHotkeys pressed cbs pl states).2 = 0 := by
  intro pl
  induction pl with
  | nil =>
    intro states _
    exact ⟨rfl, rfl, rfl⟩
  | cons e rest ih =>
    intro states hmem
    obtain ⟨hk₂, parts₂⟩ := e
    simp only [List.map_cons, List.mem_cons, not_or] at hmem
    obtain ⟨hne, hrest⟩ := hmem
    have hne₂ : ¬ hk₂ = hk := fun hh => hne hh.symm
    cases hb1 : subsetB parts₂ pressed && !(stateOf states hk₂) with
    | true =>
      rw [processHotkeys_cons_rise pressed cbs hk₂ parts₂ rest states hb1]
      dsimp only
      obtain ⟨hl, hp, hr⟩ := ih (aset hk₂ true states) hrest
      refine ⟨?_, ?_, ?_⟩
      · rw [hl, alookup_aset, if_neg hne₂]
      · rw [pressCount_append, hp]
        by_cases hcb : ((alookup hk₂ cbs).getD ⟨false, false⟩).press
        · simp [hcb, pressCount_press, hne₂]
        · simp [hcb, pressCount_nil]
      · rw [releaseCount_append, hr]
        by_cases hcb : ((alookup hk₂ cbs).getD ⟨false, false⟩).press
        · simp [hcb, releaseCount_press]
        · simp [hcb, releaseCount_nil]
    | false =>
      cases hb2 : !(subsetB parts₂ pressed) && stateOf states hk₂ with
      | true =>
        rw [processHotkeys_cons_fall pressed cbs hk₂ parts₂ rest states hb1 hb2]
        dsimp only
        obtain ⟨hl, hp, hr⟩ := ih (aset hk₂ false states) hrest
        refine ⟨?_, ?_, ?_⟩
        · rw [hl, alookup_aset, if_neg hne₂]
        · rw [pressCount_append, hp]
          by_cases hcb : ((alookup hk₂ cbs).getD ⟨false, false⟩).release
          · simp [hcb, pressCount_release]
          · simp [hcb, pressCount_nil]
        · rw [releaseCount_append, hr]
          by_cases hcb : ((alookup hk₂ cbs).getD ⟨false, false⟩).release
          · simp [hcb, releaseCount_release, hne₂]
          · simp [hcb, releaseCount_nil]
      | false =>
        rw [processHotkeys_cons_same pressed cbs hk₂ parts₂ rest states hb1 hb2]
        exact ih states hrest

/-- Effect of the loop on a registered hotkey `hk` (no duplicate keys in
the parts dictionary): its recorded state afterwards equals the current
subset status, and it receives exactly one press (resp. release)
dispatch precisely at a rising (resp. falling) transition with the
respective callable present. -/
theorem processHotkeys_tracked (pressed : List String) (cbs : AssocL CbPair)
    (hk : String) (parts : List String) :
    ∀ (pl : List (String × List String)) (states : AssocL Bool),
      (pl.map Prod.fst).Nodup → (hk, parts) ∈ pl →
      stateOf (processHotkeys pressed cbs pl states).1 hk = subsetB parts pressed ∧
      pressCount hk (processHotkeys pressed cbs pl states).2 =
        (if subsetB parts pressed && !(stateOf states hk) &&
            ((alookup hk cbs).getD ⟨false, false⟩).press then 1 else 0) ∧
      releaseCount hk (processHotkeys pressed cbs pl states).2 =
        (if !(subsetB parts pressed) && stateOf states hk &&
            ((alookup hk cbs).getD ⟨false, false⟩).release then 1 else 0) := by
  intro pl
  induction pl with
  | nil =>
    intro states _ hmem
    simp at hmem
  | cons e rest ih =>
    intro states hnd hmem
    obtain ⟨hk₂, parts₂⟩ := e
    simp only [List.map_cons, List.nodup_cons] at hnd
    obtain ⟨hhd, hndrest⟩ := hnd
    by_cases hkeq : hk₂ = hk
    · -- the head is the tracked entry
      subst hkeq
      have hparts : parts₂ = parts := by
        rcases List.mem_cons.mp hmem with h | h
        · injection h with h1 h2
          exact h2.symm
        · exact absurd (List.mem_map.mpr ⟨(hk₂, parts), h, rfl⟩) hhd
      subst hparts
      have hnotmem :=
        processHotkeys_not_mem pressed cbs hk₂ rest
      cases hb1 : subsetB parts₂ pressed && !(stateOf states hk₂) with
      | true =>
        obtain ⟨hsub, hcur⟩ := Bool.and_eq_true_iff.mp hb1
        have hcur₂ : stateOf states hk₂ = false := by
          simpa using hcur
        rw [processHotkeys_cons_rise pressed cbs hk₂ parts₂ rest states hb1]
        dsimp only
        obtain ⟨hl, hp, hr⟩ := hnotmem (aset hk₂ true states) hhd
        refine ⟨?_, ?_, ?_⟩
        · rw [stateOf, hl, alookup_aset, if_pos rfl]
          simp [hsub]
        · rw [pressCount_append, hp]
          by_cases hcb : ((alookup hk₂ cbs).getD ⟨false, false⟩).press
          · simp [hcb, hsub, hcur₂, pressCount_press]
          · simp [hcb, hsub, hcur₂, pressCount_nil]
        · rw [releaseCount_append, hr]
          by_cases hcb : ((alookup hk₂ cbs).getD ⟨false, false⟩).press
          · simp [hcb, hsub, hcur₂, releaseCount_press]
          · simp [hcb, hsub, hcur₂, releaseCount_nil]
      | false =>
        cases hb2 : !(subsetB parts₂ pressed) && stateOf states hk₂ with
        | true =>
          obtain ⟨hsub, hcur⟩ := Bool.and_eq_true_iff.mp hb2
          have hsub₂ : subsetB parts₂ pressed = false := by
            simpa using hsub
          rw [processHotkeys_cons_fall pressed cbs hk₂ parts₂ rest states hb1 hb2]
          dsimp only
          obtain ⟨hl, hp, hr⟩ := hnotmem (aset hk₂ false states) hhd
          refine ⟨?_, ?_, ?_⟩
          · rw [stateOf, hl, alookup_aset, if_pos rfl]
            simp [hsub₂]
          · rw [pressCount_append, hp]
            by_cases hcb : ((alookup hk₂ cbs).getD ⟨false, false⟩).release
            · simp [hcb, hsub₂, hcur, pressCount_release]
            · simp [hcb, hsub₂, hcur, pressCount_nil]
          · rw [releaseCount_append, hr]
            by_cases hcb : ((alookup hk₂ cbs).getD ⟨false, false⟩).release
            · simp [hcb, hsub₂, hcur, releaseCount_release]
            · simp [hcb, hsub₂, hcur, releaseCount_nil]
        | false =>
          -- no transition: the recorded state equals the subset status
          have hsame : stateOf states hk₂ = subsetB parts₂ pressed := by
            cases hx : subsetB parts₂ pressed <;> cases hy : stateOf states hk₂
            · rfl
            · rw [hx, hy] at hb2
              simp at hb2
            · rw [hx, hy] at hb1
              simp at hb1
            · rfl
          rw [processHotkeys_cons_same pressed cbs hk₂ parts₂ rest states hb1 hb2]
          obtain ⟨hl, hp, hr⟩ := hnotmem states hhd
          refine ⟨?_, ?_, ?_⟩
          · rw [stateOf, hl, ← stateOf, hsame]
          · rw [hp]
            simp
          · rw [hr]
            simp
    · -- the head is a different hotkey
      have hmem₂ : (hk, parts) ∈ rest := by
        rcases List.mem_cons.mp hmem with h | h
        · injection h with h1 h2
          exact absurd h1.symm hkeq
        · exact h
      have hstate : ∀ b, stateOf (aset hk₂ b states) hk = stateOf states hk := by
        intro b
        rw [stateOf, alookup_aset, if_neg hkeq, ← stateOf]
      cases hb1 : subsetB parts₂ pressed && !(stateOf states hk₂) with
      | true =>
        rw [processHotkeys_cons_rise pressed cbs hk₂ parts₂ rest states hb1]
        dsimp only
        obtain ⟨hl, hp, hr⟩ := ih (aset hk₂ true states) hndrest hmem₂
        refine ⟨hl.trans ?_, ?_, ?_⟩
        · rfl
        · rw [pressCount_append, hp, hstate]
          by_cases hcb : ((alookup hk₂ cbs).getD ⟨false, false⟩).press
          · simp [hcb, pressCount_press, hkeq]
          · simp [hcb, pressCount_nil]
        · rw [releaseCount_append, hr, hstate]
          by_cases hcb : ((alookup hk₂ cbs).getD ⟨false, false⟩).press
          · simp [hcb, releaseCount_press]
          · simp [hcb, releaseCount_nil]
      | false =>
        cases hb2 : !(subsetB parts₂ pressed) && stateOf states hk₂ with
        | true =>
          rw [processHotkeys_cons_fall pressed cbs hk₂ parts₂ rest states hb1 hb2]
          dsimp only
          obtain ⟨hl, hp, hr⟩ := ih (aset hk₂ false states) hndrest hmem₂
          refine ⟨hl.trans ?_, ?_, ?_⟩
          · rfl
          · rw [pressCount_append, hp, hstate]
            by_cases hcb : ((alookup hk₂ cbs).getD ⟨false, false⟩).release
            · simp [hcb, pressCount_release]
            · simp [hcb, pressCount_nil]
          · rw [releaseCount_append, hr, hstate]
            by_cases hcb : ((alookup hk₂ cbs).getD ⟨false, false⟩).release
            · simp [hcb, releaseCount_release, hkeq]
            · simp [hcb, releaseCount_nil]
        | false =>
          rw [processHotkeys_cons_same pressed cbs hk₂ parts₂ rest states hb1 hb2]
          exact ih states hndrest hmem₂

/-- When every registered hotkey's recorded state already equals its
subset status, the loop changes nothing and dispatches nothing. -/
theorem processHotkeys_no_transition (pressed : List String)
    (cbs : AssocL CbPair) :
    ∀ (pl : List (String × List String)) (states : AssocL Bool),
      (∀ hk parts, (hk, parts) ∈ pl →
        stateOf states hk = subsetB parts pressed) →
      processHotkeys pressed cbs pl states = (states, []) := by
  intro pl
  induction pl with
  | nil =>
    intro states _
    rfl
  | cons e rest ih =>
    intro states h
    obtain ⟨hk₂, parts₂⟩ := e
    have hhd : stateOf states hk₂ = subsetB parts₂ pressed :=
      h hk₂ parts₂ (List.mem_cons_self _ _)
    have hb1 : (subsetB parts₂ pressed && !(stateOf states hk₂)) = false := by
      rw [hhd]
      cases subsetB parts₂ pressed <;> simp
    have hb2 : (!(subsetB parts₂ pressed) && stateOf states hk₂) = false := by
      rw [hhd]
      cases subsetB parts₂ pressed <;> simp
    rw [processHotkeys_cons_same pressed cbs hk₂ parts₂ rest states hb1 hb2]
    exact ih states (fun hk parts hmem => h hk parts (List.mem_cons_of_mem _ hmem))

/-- The loop only creates state entries for registered hotkeys. -/
theorem processHotkeys_keys_subset (pressed : List String)
    (cbs : AssocL CbPair) :
    ∀ (pl : List (String × List String)) (states : AssocL Bool) (x : String),
      x ∈ akeys (processHotkeys pressed cbs pl states).1 →
      x ∈ akeys states ∨ x ∈ pl.map Prod.fst := by
  intro pl
  induction pl with
  | nil =>
    intro states x hx
    exact Or.inl hx
  | cons e rest ih =>
    intro states x hx
    obtain ⟨hk₂, parts₂⟩ := e
    simp only [List.map_cons, List.mem_cons]
    cases hb1 : subsetB parts₂ pressed && !(stateOf states hk₂) with
    | true =>
      rw [processHotkeys_cons_rise pressed cbs hk₂ parts₂ rest states hb1] at hx
      dsimp only at hx
      rcases ih (aset hk₂ true states) x hx with h | h
      · rcases (mem_akeys_aset x hk₂ true states).mp h with h | h
        · exact Or.inr (Or.inl h)
        · exact Or.inl h
      · exact Or.inr (Or.inr h)
    | false =>
      cases hb2 : !(subsetB parts₂ pressed) && stateOf states hk₂ with
      | true =>
        rw [processHotkeys_cons_fall pressed cbs hk₂ parts₂ rest states hb1 hb2] at hx
        dsimp only at hx
        rcases ih (aset hk₂ false states) x hx with h | h
        · rcases (mem_akeys_aset x hk₂ false states).mp h with h | h
          · exact Or.inr (Or.inl h)
          · exact Or.inl h
        · exact Or.inr (Or.inr h)
      | false =>
        rw [processHotkeys_cons_same pressed cbs hk₂ parts₂ rest states hb1 hb2] at hx
        rcases ih states x hx with h | h
        · exact Or.inl h
        · exact Or.inr (Or.inr h)

/-! ### Event-callback lemmas -/

theorem keyboardEventCallback_none (normalize : String → Option String)
    (m : HotkeyManager) (e : KeyEvent) (h : normalize e.name = none) :
    m.keyboardEventCallback normalize e = (m, []) := by
  unfold HotkeyManager.keyboardEventCallback
  rw [h]

theorem keyboardEventCallback_some (normalize : String → Option String)
    (m : HotkeyManager) (e : KeyEvent) (k : String)
    (h : normalize e.name = some k) :
    m.keyboardEventCallback normalize e =
      ({ m with pressedKeys := newPressed e k m.pressedKeys,
                hotkeyStates := (processHotkeys (newPressed e k m.pressedKeys)
                  m.callbacks m.hotkeyParts m.hotkeyStates).1 },
       (processHotkeys (newPressed e k m.pressedKeys)
          m.callbacks m.hotkeyParts m.hotkeyStates).2) := by
  unfold HotkeyManager.keyboardEventCallback
  rw [h]

/-- The event callback never touches the parts and callback
dictionaries, nor the hook flag or the record hotkey string. -/
theorem keyboardEventCallback_frame (normalize : String → Option String)
    (m : HotkeyManager) (e : KeyEvent) :
    (m.keyboardEventCallback normalize e).1.hotkeyParts = m.hotkeyParts ∧
    (m.keyboardEventCallback normalize e).1.callbacks = m.callbacks ∧
    (m.keyboardEventCallback normalize e).1.hooked = m.hooked ∧
    (m.keyboardEventCallback normalize e).1.recordHotkeyStr = m.recordHotkeyStr := by
  cases h : normalize e.name with
  | none =>
    rw [keyboardEventCallback_none normalize m e h]
    exact ⟨rfl, rfl, rfl, rfl⟩
  | some k =>
    rw [keyboardEventCallback_some normalize m e k h]
    exact ⟨rfl, rfl, rfl, rfl⟩

/-- One event preserves well-formedness. -/
theorem hkWf_step (normalize : String → Option String) (m : HotkeyManager)
    (e : KeyEvent) (hwf : hkWf m) :
    hkWf (m.keyboardEventCallback normalize e).1 := by
  cases h : normalize e.name with
  | none =>
    rw [keyboardEventCallback_none normalize m e h]
    exact hwf
  | some k =>
    rw [keyboardEventCallback_some normalize m e k h]
    refine ⟨hwf.1, ?_⟩
    intro hk parts hlk
    have hmem := alookup_mem hk parts m.hotkeyParts hlk
    exact (processHotkeys_tracked (newPressed e k m.pressedKeys) m.callbacks
      hk parts m.hotkeyParts m.hotkeyStates hwf.1 hmem).1

/-- Per-event dispatch counts for a registered hotkey with its recorded
callables: exactly one press dispatch at a rising subset transition,
exactly one release dispatch at a falling one, none otherwise. -/
theorem keyboardEventCallback_counts (normalize : String → Option String)
    (m : HotkeyManager) (e : KeyEvent) (hk : String) (parts : List String)
    (cb : CbPair) (hwf : hkWf m)
    (hparts : alookup hk m.hotkeyParts = some parts)
    (hcb : alookup hk m.callbacks = some cb) :
    pressCount hk (m.keyboardEventCallback normalize e).2 =
      (if subsetB parts (m.keyboardEventCallback normalize e).1.pressedKeys &&
          !(subsetB parts m.pressedKeys) && cb.press then 1 else 0) ∧
    releaseCount hk (m.keyboardEventCallback normalize e).2 =
      (if !(subsetB parts (m.keyboardEventCallback normalize e).1.pressedKeys) &&
          subsetB parts m.pressedKeys && cb.release then 1 else 0) := by
  cases h : normalize e.name with
  | none =>
    rw [keyboardEventCallback_none normalize m e h]
    constructor
    · rw [pressCount_nil]
      cases subsetB parts m.pressedKeys <;> simp
    · rw [releaseCount_nil]
      cases subsetB parts m.pressedKeys <;> simp
  | some k =>
    rw [keyboardEventCallback_some normalize m e k h]
    dsimp only
    have hmem := alookup_mem hk parts m.hotkeyParts hparts
    have htr := processHotkeys_tracked (newPressed e k m.pressedKeys)
      m.callbacks hk parts m.hotkeyParts m.hotkeyStates hwf.1 hmem
    have hstate : stateOf m.hotkeyStates hk = subsetB parts m.pressedKeys :=
      hwf.2 hk parts hparts
    refine ⟨?_, ?_⟩
    · rw [htr.2.1, hstate, hcb]
      rfl
    · rw [htr.2.2, hstate, hcb]
      rfl

/-- Debounce: a key-down event for a key that is already pressed leaves
the whole manager state unchanged and dispatches nothing. -/
theorem keyboardEventCallback_repeat_down (normalize : String → Option String)
    (m : HotkeyManager) (n k : String) (hwf : hkWf m)
    (hnorm : normalize n = some k) (hmem : k ∈ m.pressedKeys) :
    m.keyboardEventCallback normalize (KeyEvent.down n) = (m, []) := by
  have hname : (KeyEvent.down n).name = n := rfl
  rw [keyboardEventCallback_some normalize m (KeyEvent.down n) k
    (by rw [hname]; exact hnorm)]
  have hpress : newPressed (KeyEvent.down n) k m.pressedKeys = m.pressedKeys := by
    simp [newPressed, insertKey, hmem]
  rw [hpress]
  have hnochange : processHotkeys m.pressedKeys m.callbacks m.hotkeyParts
      m.hotkeyStates = (m.hotkeyStates, []) := by
    apply processHotkeys_no_transition
    intro hk parts hmem₂
    exact hwf.2 hk parts (alookup_eq_some_of_mem_nodup hk parts _ hwf.1 hmem₂)
  rw [hnochange]

theorem runEvents_nil (normalize : String → Option String) (m : HotkeyManager) :
    HotkeyManager.runEvents normalize m [] = (m, []) := rfl

theorem runEvents_cons (normalize : String → Option String) (m : HotkeyManager)
    (e : KeyEvent) (es : List KeyEvent) :
    HotkeyManager.runEvents normalize m (e :: es) =
      ((HotkeyManager.runEvents normalize
          (m.keyboardEventCallback normalize e).1 es).1,
        (m.keyboardEventCallback normalize e).2 ++
          (HotkeyManager.runEvents normalize
            (m.keyboardEventCallback normalize e).1 es).2) := rfl

theorem pressedTrace_nil (normalize : String → Option String)
    (m : HotkeyManager) : HotkeyManager.pressedTrace normalize m [] = [] := rfl

theorem pressedTrace_cons (normalize : String → Option String)
    (m : HotkeyManager) (e : KeyEvent) (es : List KeyEvent) :
    HotkeyManager.pressedTrace normalize m (e :: es) =
      (m.keyboardEventCallback normalize e).1.pressedKeys ::
        HotkeyManager.pressedTrace normalize
          (m.keyboardEventCallback normalize e).1 es := rfl

/-- Over any event sequence, the press dispatches of a hotkey registered
with both callables are exactly the rising edges of its subset status,
and the release dispatches exactly the falling edges. -/
theorem runEvents_edge_counts (normalize : String → Option String)
    (es : List KeyEvent) :
    ∀ m : HotkeyManager, hkWf m →
      ∀ hk parts, alookup hk m.hotkeyParts = some parts →
        alookup hk m.callbacks = some ⟨true, true⟩ →
        pressCount hk (HotkeyManager.runEvents normalize m es).2 =
          riseCount (subsetB parts m.pressedKeys)
            ((HotkeyManager.pressedTrace normalize m es).map
              (fun ps => subsetB parts ps)) ∧
        releaseCount hk (HotkeyManager.runEvents normalize m es).2 =
          fallCount (subsetB parts m.pressedKeys)
            ((HotkeyManager.pressedTrace normalize m es).map
              (fun ps => subsetB parts ps)) := by
  induction es with
  | nil =>
    intro m _ hk parts _ _
    rw [runEvents_nil, pressedTrace_nil]
    exact ⟨rfl, rfl⟩
  | cons e es ih =>
    intro m hwf hk parts hparts hcb
    have hframe := keyboardEventCallback_frame normalize m e
    have hwf₂ := hkWf_step normalize m e hwf
    have hparts₂ : alookup hk (m.keyboardEventCallback normalize e).1.hotkeyParts =
        some parts := by rw [hframe.1]; exact hparts
    have hcb₂ : alookup hk (m.keyboardEventCallback normalize e).1.callbacks =
        some ⟨true, true⟩ := by rw [hframe.2.1]; exact hcb
    have hcounts := keyboardEventCallback_counts normalize m e hk parts
      ⟨true, true⟩ hwf hparts hcb
    have ihm := ih (m.keyboardEventCallback normalize e).1 hwf₂ hk parts
      hparts₂ hcb₂
    rw [runEvents_cons, pressedTrace_cons]
    dsimp only
    rw [List.map_cons]
    constructor
    · rw [pressCount_append, hcounts.1, ihm.1, riseCount]
      simp
    · rw [releaseCount_append, hcounts.2, ihm.2, fallCount]
      simp

/-! ### Claim C1 -/

/-- C1: for every processed key-event sequence and every combination
registered with both callables, the activate callback is dispatched
exactly once per not-subset-to-subset transition of the combination's
normalized keys within the pressed-key set (hence exactly once per
maximal all-held interval), the deactivate callback exactly once per
reverse transition, and an event that does not change the subset status
dispatches nothing — in particular a repeated key-down for an
already-pressed key changes nothing and dispatches nothing. -/
theorem hotkey_dispatch_per_interval (normalize : String → Option String)
    (m : HotkeyManager) (es : List KeyEvent) (hk : String)
    (parts : List String) (hwf : hkWf m)
    (hparts : alookup hk m.hotkeyParts = some parts)
    (hcb : alookup hk m.callbacks = some ⟨true, true⟩) :
    (pressCount hk (HotkeyManager.runEvents normalize m es).2 =
      riseCount (subsetB parts m.pressedKeys)
        ((HotkeyManager.pressedTrace normalize m es).map
          (fun ps => subsetB parts ps))) ∧
    (releaseCount hk (HotkeyManager.runEvents normalize m es).2 =
      fallCount (subsetB parts m.pressedKeys)
        ((HotkeyManager.pressedTrace normalize m es).map
          (fun ps => subsetB parts ps))) ∧
    (∀ n k, normalize n = some k → k ∈ m.pressedKeys →
      m.keyboardEventCallback normalize (KeyEvent.down n) = (m, [])) := by
  obtain ⟨h1, h2⟩ := runEvents_edge_counts normalize es m hwf hk parts hparts hcb
  exact ⟨h1, h2, fun n k hn hm =>
    keyboardEventCallback_repeat_down normalize m n k hwf hn hm⟩

theorem sampleManager_wf : hkWf sampleManager := by
  constructor
  · simp [sampleManager, akeys]
  · intro hk parts h
    by_cases heq : "a+b" = hk
    · subst heq
      have hp : parts = ["a", "b"] := by
        have h₂ := h
        simp only [sampleManager, alookup, if_pos rfl] at h₂
        exact (Option.some.injEq _ _ ▸ h₂).symm
      subst hp
      rfl
    · exfalso
      simp [sampleManager, alookup, heq] at h

/-- Witness for C1: the sample manager processing six events (a rise, a
repeated down, a fall, a rise, a fall) dispatches the press callback
exactly at the two rising edges. -/
theorem hotkey_dispatch_per_interval_witness :
    (hkWf sampleManager ∧
      alookup "a+b" sampleManager.hotkeyParts = some ["a", "b"] ∧
      alookup "a+b" sampleManager.callbacks = some ⟨true, true⟩) ∧
    (pressCount "a+b" (HotkeyManager.runEvents some sampleManager sampleEvents).2 =
      riseCount (subsetB ["a", "b"] sampleManager.pressedKeys)
        ((HotkeyManager.pressedTrace some sampleManager sampleEvents).map
          (fun ps => subsetB ["a", "b"] ps))) ∧
    pressCount "a+b" (HotkeyManager.runEvents some sampleManager sampleEvents).2 = 2 ∧
    releaseCount "a+b" (HotkeyManager.runEvents some sampleManager sampleEvents).2 = 2 :=
  ⟨⟨sampleManager_wf, by decide, by decide⟩,
   (hotkey_dispatch_per_interval some sampleManager sampleEvents "a+b"
      ["a", "b"] sampleManager_wf (by decide) (by decide)).1,
   by decide, by decide⟩

/-! ### Claim C9 -/

/-- C9 counterexample: with the listener already started, a second
`start()` call returns `True` — not the failure (`False`) the claim
states — while indeed not invoking `keyboard.hook` again. -/
theorem start_already_started_counterexample :
    (HotkeyManager.start true
      { HotkeyManager.init "alt+v" with hooked := true }).1 = true ∧
    ¬ ((HotkeyManager.start true
      { HotkeyManager.init "alt+v" with hooked := true }).1 = false) ∧
    (HotkeyManager.start true
      { HotkeyManager.init "alt+v" with hooked := true }).2.2 = 0 := by
  exact ⟨rfl, by decide, rfl⟩

/-- C9 (amended): calling `start()` when the engine is already started
returns `True` (idempotent success rather than failure), does not invoke
`keyboard.hook` again, and leaves the state unchanged. -/
theorem start_already_started (hookOk : Bool) (m : HotkeyManager)
    (h : m.hooked = true) :
    m.start hookOk = (true, m, 0) := by
  simp [HotkeyManager.start, h]

/-- Witness for C9 (amended) at a concrete hooked manager. -/
theorem start_already_started_witness :
    ({ HotkeyManager.init "alt+v" with hooked := true } : HotkeyManager).hooked
      = true ∧
    HotkeyManager.start true { HotkeyManager.init "alt+v" with hooked := true } =
      (true, { HotkeyManager.init "alt+v" with hooked := true }, 0) :=
  ⟨rfl, start_already_started true _ rfl⟩

/-! ### Claim C10 -/

theorem hmInv_mk (m m₂ : HotkeyManager) (hc : m₂.callbacks = m.callbacks)
    (hp : m₂.hotkeyParts = m.hotkeyParts)
    (hs : m₂.hotkeyStates = m.hotkeyStates) (h : hmInv m) : hmInv m₂ := by
  unfold hmInv at h ⊢
  rw [hc, hp, hs]
  exact h

theorem hmInv_erase_all (hk : String) (m : HotkeyManager) (h : hmInv m) :
    hmInv { m with hotkeyParts := aerase hk m.hotkeyParts,
                   callbacks := aerase hk m.callbacks,
                   hotkeyStates := aerase hk m.hotkeyStates } := by
  refine ⟨fun k => ?_, fun k hks => ?_⟩
  · dsimp only
    rw [mem_akeys_aerase, mem_akeys_aerase]
    constructor
    · rintro ⟨hmem, hne⟩
      exact ⟨(h.1 k).mp hmem, hne⟩
    · rintro ⟨hmem, hne⟩
      exact ⟨(h.1 k).mpr hmem, hne⟩
  · dsimp only at hks ⊢
    rw [mem_akeys_aerase] at hks ⊢
    exact ⟨h.2 k hks.1, hks.2⟩

theorem hmInv_register (normalize : String → Option String) (hk : String)
    (p r : Bool) (m : HotkeyManager) (h : hmInv m) :
    hmInv (m.registerHotkey normalize hk p r).2 := by
  unfold HotkeyManager.registerHotkey
  cases hparse : parseParts normalize hk with
  | none =>
    exact hmInv_erase_all hk m h
  | some ps =>
    dsimp only
    by_cases hemp : ps.isEmpty
    · rw [if_pos hemp]
      exact h
    · rw [if_neg hemp]
      refine ⟨fun k => ?_, fun k hks => ?_⟩
      · dsimp only
        rw [mem_akeys_aset, mem_akeys_aset]
        constructor
        · rintro (h1 | h1)
          · exact Or.inl h1
          · exact Or.inr ((h.1 k).mp h1)
        · rintro (h1 | h1)
          · exact Or.inl h1
          · exact Or.inr ((h.1 k).mpr h1)
      · dsimp only at hks ⊢
        rw [mem_akeys_aset] at hks ⊢
        rcases hks with h1 | h1
        · exact Or.inl h1
        · exact Or.inr (h.2 k h1)

theorem hmInv_unregister (hk : String) (m : HotkeyManager) (h : hmInv m) :
    hmInv (m.unregisterHotkey hk).2 := by
  unfold HotkeyManager.unregisterHotkey
  by_cases hs : (alookup hk m.hotkeyParts).isSome
  · rw [if_pos hs]
    exact hmInv_erase_all hk m h
  · rw [if_neg hs]
    exact h

theorem hmInv_updateRecord (normalize : String → Option String) (s : String)
    (m : HotkeyManager) (h : hmInv m) :
    hmInv (m.updateRecordHotkey normalize s).2 := by
  unfold HotkeyManager.updateRecordHotkey
  by_cases h1 : m.recordHotkeyStr = s
  · rw [if_pos h1]
    exact h
  · rw [if_neg h1]
    have hm₁ : hmInv (if (alookup m.recordHotkeyStr m.hotkeyParts).isSome
        then (m.unregisterHotkey m.recordHotkeyStr).2 else m) := by
      by_cases hp : (alookup m.recordHotkeyStr m.hotkeyParts).isSome
      · rw [if_pos hp]
        exact hmInv_unregister _ _ h
      · rw [if_neg hp]
        exact h
    cases hcb : alookup m.recordHotkeyStr m.callbacks with
    | some cb =>
      dsimp only
      have hr := hmInv_register normalize s cb.press cb.release _ hm₁
      by_cases hsucc : (HotkeyManager.registerHotkey normalize s cb.press
          cb.release (if (alookup m.recordHotkeyStr m.hotkeyParts).isSome
            then (m.unregisterHotkey m.recordHotkeyStr).2 else m)).1
      · rw [if_pos hsucc]
        exact hmInv_mk _ _ rfl rfl rfl hr
      · rw [if_neg hsucc]
        exact hmInv_register normalize _ _ _ _ hr
    | none =>
      dsimp only
      have hr := hmInv_register normalize s false false _ hm₁
      by_cases hsucc : (HotkeyManager.registerHotkey normalize s false false
          (if (alookup m.recordHotkeyStr m.hotkeyParts).isSome
            then (m.unregisterHotkey m.recordHotkeyStr).2 else m)).1
      · rw [if_pos hsucc]
        exact hmInv_mk _ _ rfl rfl rfl hr
      · rw [if_neg hsucc]
        exact hr

theorem hmInv_keyEvent (normalize : String → Option String)
    (m : HotkeyManager) (e : KeyEvent) (h : hmInv m) :
    hmInv (m.keyboardEventCallback normalize e).1 := by
  cases hn : normalize e.name with
  | none =>
    rw [keyboardEventCallback_none normalize m e hn]
    exact h
  | some k =>
    rw [keyboardEventCallback_some normalize m e k hn]
    refine ⟨fun x => h.1 x, fun x hx => ?_⟩
    dsimp only at hx
    rcases processHotkeys_keys_subset (newPressed e k m.pressedKeys)
      m.callbacks m.hotkeyParts m.hotkeyStates x hx with h2 | h2
    · exact h.2 x h2
    · exact h2

theorem registerHotkey_parse_none (normalize : String → Option String)
    (hk : String) (p r : Bool) (m : HotkeyManager)
    (hparse : parseParts normalize hk = none) :
    m.registerHotkey normalize hk p r =
      (false, { m with hotkeyParts := aerase hk m.hotkeyParts,
                       callbacks := aerase hk m.callbacks,
                       hotkeyStates := aerase hk m.hotkeyStates }) := by
  unfold HotkeyManager.registerHotkey
  rw [hparse]

theorem registerHotkey_parse_some (normalize : String → Option String)
    (hk : String) (p r : Bool) (m : HotkeyManager) (ps : List String)
    (hparse : parseParts normalize hk = some ps) (hne : ps ≠ []) :
    m.registerHotkey normalize hk p r =
      (true, { m with hotkeyParts := aset hk ps m.hotkeyParts,
                      callbacks := aset hk ⟨p, r⟩ m.callbacks,
                      hotkeyStates := aset hk false m.hotkeyStates }) := by
  unfold HotkeyManager.registerHotkey
  rw [hparse]
  cases ps with
  | nil => exact absurd rfl hne
  | cons x xs => rfl

theorem register_failed_no_entry (normalize : String → Option String)
    (hk : String) (p r : Bool) (m : HotkeyManager)
    (hfail : (m.registerHotkey normalize hk p r).1 = false) :
    alookup hk ((m.registerHotkey normalize hk p r).2).hotkeyParts = none ∧
    alookup hk ((m.registerHotkey normalize hk p r).2).callbacks = none ∧
    alookup hk ((m.registerHotkey normalize hk p r).2).hotkeyStates = none := by
  cases hparse : parseParts normalize hk with
  | none =>
    rw [registerHotkey_parse_none normalize hk p r m hparse]
    refine ⟨?_, ?_, ?_⟩ <;> simp [alookup_aerase]
  | some ps =>
    rw [registerHotkey_parse_some normalize hk p r m ps hparse
      (parseParts_some_ne_nil normalize hk ps hparse)] at hfail
    simp at hfail

/-- C10: the registration-state invariant — the parts and callbacks
dictionaries always hold exactly the same hotkey identifiers and the
state dictionary's identifiers are among them — is preserved by every
operation (register, unregister, record-hotkey update, start, stop and
every processed key event), and a failed registration leaves no entry
for its identifier in any of the three dictionaries. -/
theorem hm_registration_invariant (normalize : String → Option String)
    (m : HotkeyManager) (op : HMOp) (hinv : hmInv m) :
    hmInv (m.applyOp normalize op) ∧
    (∀ hk p r, (m.registerHotkey normalize hk p r).1 = false →
      alookup hk ((m.registerHotkey normalize hk p r).2).hotkeyParts = none ∧
      alookup hk ((m.registerHotkey normalize hk p r).2).callbacks = none ∧
      alookup hk ((m.registerHotkey normalize hk p r).2).hotkeyStates = none) := by
  constructor
  · cases op with
    | register hk p r => exact hmInv_register normalize hk p r m hinv
    | unregister hk => exact hmInv_unregister hk m hinv
    | updateRecord s => exact hmInv_updateRecord normalize s m hinv
    | start ok =>
      show hmInv (m.start ok).2.1
      unfold HotkeyManager.start
      by_cases hh : m.hooked
      · rw [if_pos hh]
        exact hinv
      · rw [if_neg hh]
        by_cases hok : ok = true
        · rw [if_pos hok]
          exact hmInv_mk _ _ rfl rfl rfl hinv
        · rw [if_neg hok]
          exact hmInv_mk _ _ rfl rfl rfl hinv
    | stop ok =>
      show hmInv (m.stop ok).2
      unfold HotkeyManager.stop
      by_cases hh : ¬ m.hooked = true
      · rw [if_pos hh]
        exact hinv
      · rw [if_neg hh]
        by_cases hok : ok = true
        · rw [if_pos hok]
          refine ⟨fun k => hinv.1 k, fun k hk => ?_⟩
          simp [akeys] at hk
        · rw [if_neg hok]
          exact hinv
    | keyEvent e => exact hmInv_keyEvent normalize m e hinv
  · intro hk p r hfail
    exact register_failed_no_entry normalize hk p r m hfail

theorem hmInv_init (s : String) : hmInv (HotkeyManager.init s) := by
  refine ⟨fun k => ?_, fun k hk => ?_⟩
  · simp [HotkeyManager.init, akeys]
  · simp [HotkeyManager.init, akeys] at hk

/-- Witness for C10: the invariant holds of the freshly initialized
manager and is preserved by a concrete registration. -/
theorem hm_registration_invariant_witness :
    hmInv (HotkeyManager.init "alt+v") ∧
    (hmInv ((HotkeyManager.init "alt+v").applyOp some
        (HMOp.register "ctrl+shift+space" true true)) ∧
      (∀ hk p r,
        ((HotkeyManager.init "alt+v").registerHotkey some hk p r).1 = false →
        alookup hk (((HotkeyManager.init "alt+v").registerHotkey
          some hk p r).2).hotkeyParts = none ∧
        alookup hk (((HotkeyManager.init "alt+v").registerHotkey
          some hk p r).2).callbacks = none ∧
        alookup hk (((HotkeyManager.init "alt+v").registerHotkey
          some hk p r).2).hotkeyStates = none)) :=
  ⟨hmInv_init "alt+v",
   hm_registration_invariant some (HotkeyManager.init "alt+v")
     (HMOp.register "ctrl+shift+space" true true) (hmInv_init "alt+v")⟩

end SpeechWave
